import Mathlib

/-
Verification of the Turing-machine execution engine of the repository
(src/src/turing_machine.py, src/src/transitions.py, src/src/utils.py).

The engine is shallowly embedded: the machine definition and the mutable run
state of the Python class `TuringMachine` become Lean structures, each method
becomes a Lean function (fallible operations return `Except String`, mirroring
Python exceptions), and the distinct literal message strings produced by the
engine become constructors of an inductive `Msg` type.
-/

namespace TM

/-- The distinct observable messages produced by the engine.  Each constructor
stands for one of the literal strings built in `turing_machine.py`:
`"CADENA ACEPTADA"`, `"CADENA RECHAZADA"`,
`"RECHAZADA: No hay transición definida"`, the interpolated per-step
description, and `"RECHAZADA: Máximo de pasos alcanzado"`. -/
inductive Msg where
| accepted : Msg
| rejected : Msg
| noTransition : Msg
| stepDescr (old_state new_state : String) (read_sym write_sym dir : Char) : Msg
| maxStepsReached : Msg
deriving DecidableEq

/-- One history entry, as built by `TuringMachine._save_configuration`. -/
structure Config where
  step : Nat
  state : String
  tape : List Char
  head : Int
  symbol : Char
deriving DecidableEq

/-- The immutable part of the Python `TuringMachine` object: the fields set
from the constructor arguments.  Python sets are modelled as lists (membership
tests agree; `list(s)[0]` becomes taking the list head). -/
structure Machine where
  states : List String
  alphabet : List Char
  tape_alphabet : List Char
  transitions : List ((String × Char) × (String × Char × Char))
  initial_state : String
  accept_states : List String
  reject_states : List String
  blank_symbol : Char
deriving DecidableEq

/-- The mutable part of the Python `TuringMachine` object. -/
structure MState where
  tape : List Char
  head_position : Int
  current_state : String
  history : List Config
  step_count : Nat
deriving DecidableEq

/-- The 5-tuple returned by `TuringMachine.step`. -/
structure StepResult where
  cont : Bool
  state : String
  tape : List Char
  pos : Int
  msg : Msg
deriving DecidableEq

/-- The dictionary returned by `TuringMachine.get_status`. -/
structure Status where
  state : String
  tape : List Char
  head : Int
  step : Nat
  is_accepting : Bool
  is_rejecting : Bool
  is_running : Bool
deriving DecidableEq

deriving instance DecidableEq for Except

/-- Python list read `t[i]`: negative indices wrap once from the right;
an index out of range raises `IndexError`. -/
def pyIndex (t : List Char) (i : Int) : Except String Char :=
  let j : Int := if i < 0 then i + t.length else i
  if 0 ≤ j ∧ j < t.length then .ok (t.getD j.toNat ' ') else .error "IndexError"

/-- Python list write `t[i] = c`: same index semantics as `pyIndex`. -/
def pySet (t : List Char) (i : Int) (c : Char) : Except String (List Char) :=
  let j : Int := if i < 0 then i + t.length else i
  if 0 ≤ j ∧ j < t.length then .ok (t.set j.toNat c) else .error "IndexError"

/-- `TuringMachine.__init__`: stores the definition and fails with
`ValueError` exactly when the blank symbol is not in the tape alphabet.
(The Python code performs no other validation.) -/
def mkTuringMachine (states : List String) (alphabet : List Char)
    (tape_alphabet : List Char)
    (transitions : List ((String × Char) × (String × Char × Char)))
    (initial_state : String) (accept_states reject_states : List String)
    (blank_symbol : Char) : Except String Machine :=
  if tape_alphabet.contains blank_symbol then
    .ok { states := states, alphabet := alphabet, tape_alphabet := tape_alphabet,
          transitions := transitions, initial_state := initial_state,
          accept_states := accept_states, reject_states := reject_states,
          blank_symbol := blank_symbol }
  else .error "ValueError: blank symbol not in tape alphabet"

/-- The run-state fields as `__init__` leaves them: empty tape, head at 0,
current state = initial state, empty history, step count 0. -/
def freshState (M : Machine) : MState :=
  { tape := [], head_position := 0, current_state := M.initial_state,
    history := [], step_count := 0 }

/-- `TuringMachine._save_configuration`: appends a snapshot to the history.
The recorded symbol is `tape[head]` when `head < len(tape)` (Python indexing,
so a negative head wraps) and the blank symbol otherwise. -/
def save_configuration (M : Machine) (s : MState) : Except String MState :=
  match (if s.head_position < (s.tape.length : Int)
         then pyIndex s.tape s.head_position
         else Except.ok M.blank_symbol) with
  | .error e => .error e
  | .ok sym =>
    .ok { s with history := s.history ++
            [{ step := s.step_count, state := s.current_state, tape := s.tape,
               head := s.head_position, symbol := sym }] }

/-- `TuringMachine.reset`: tape = 5 blanks, the input, 5 blanks; head at 5;
current state = initial state; history cleared then one snapshot saved;
step count 0. -/
def reset (M : Machine) (input_string : String) : Except String MState :=
  save_configuration M
    { tape := List.replicate 5 M.blank_symbol ++ input_string.toList ++
              List.replicate 5 M.blank_symbol,
      head_position := 5, current_state := M.initial_state,
      history := [], step_count := 0 }

/-- `TuringMachine._ensure_tape_bounds`: if the head is negative, prepend 5
blanks and shift the head by 5; then append blanks one at a time while the
head is at or beyond the end (net effect: append `head + 1 - length` blanks
when `head ≥ length`). -/
def ensure_tape_bounds (blank : Char) (tape : List Char) (head : Int) :
    List Char × Int :=
  let p := if head < 0 then (List.replicate 5 blank ++ tape, head + 5)
           else (tape, head)
  (p.1 ++ List.replicate (p.2 + 1 - (p.1.length : Int)).toNat blank, p.2)

/-- `TuringMachine.step`, translated branch by branch. -/
def step (M : Machine) (s : MState) : Except String (StepResult × MState) :=
  if M.accept_states.contains s.current_state then
    .ok ({ cont := false, state := s.current_state, tape := s.tape,
           pos := s.head_position, msg := .accepted }, s)
  else if M.reject_states.contains s.current_state then
    .ok ({ cont := false, state := s.current_state, tape := s.tape,
           pos := s.head_position, msg := .rejected }, s)
  else
    let p := ensure_tape_bounds M.blank_symbol s.tape s.head_position
    let s1 : MState := { s with tape := p.1, head_position := p.2 }
    match pyIndex s1.tape s1.head_position with
    | .error e => .error e
    | .ok current_symbol =>
      match List.lookup (s1.current_state, current_symbol) M.transitions with
      | none =>
        let s2 := { s1 with current_state := M.reject_states.headD "qr" }
        match save_configuration M s2 with
        | .error e => .error e
        | .ok s3 =>
          .ok ({ cont := false, state := s3.current_state, tape := s3.tape,
                 pos := s3.head_position, msg := .noTransition }, s3)
      | some (new_state, write_symbol, direction) =>
        match pySet s1.tape s1.head_position write_symbol with
        | .error e => .error e
        | .ok t2 =>
          match (if direction = 'R' then Except.ok (s1.head_position + 1)
                 else if direction = 'L' then Except.ok (s1.head_position - 1)
                 else if direction = 'S' then Except.ok s1.head_position
                 else Except.error "ValueError: invalid direction") with
          | .error e => .error e
          | .ok h2 =>
            let s2 : MState :=
              { s1 with
                tape := t2
                head_position := h2
                current_state := new_state
                step_count := s1.step_count + 1 }
            match save_configuration M s2 with
            | .error e => .error e
            | .ok s3 =>
              if M.accept_states.contains s3.current_state then
                .ok ({ cont := false, state := s3.current_state,
                       tape := s3.tape, pos := s3.head_position,
                       msg := .accepted }, s3)
              else if M.reject_states.contains s3.current_state then
                .ok ({ cont := false, state := s3.current_state,
                       tape := s3.tape, pos := s3.head_position,
                       msg := .rejected }, s3)
              else
                .ok ({ cont := true, state := s3.current_state,
                       tape := s3.tape, pos := s3.head_position,
                       msg := .stepDescr s1.current_state new_state
                               current_symbol write_symbol direction }, s3)

/-- The `for _ in range(max_steps)` loop of `TuringMachine.run` (with
`step_by_step=False`; the inter-step delay has no semantic effect):
repeatedly step, collecting results, stopping early when a result reports
`continue=False`. -/
def run_loop (M : Machine) :
    Nat → MState → List StepResult → Except String (List StepResult × MState)
| 0, s, results => .ok (results, s)
| n + 1, s, results =>
  match step M s with
  | .error e => .error e
  | .ok (r, s1) =>
    if r.cont then run_loop M n s1 (results ++ [r])
    else .ok (results ++ [r], s1)

/-- The post-loop check of `TuringMachine.run`: if `step_count >= max_steps`,
override the current state with the first reject state (or `'qr'`) and append
a forced step-limit result. -/
def run_finalize (M : Machine) (max_steps : Nat) (results : List StepResult)
    (s : MState) : List StepResult × MState :=
  if max_steps ≤ s.step_count then
    let s1 := { s with current_state := M.reject_states.headD "qr" }
    (results ++ [{ cont := false, state := s1.current_state, tape := s1.tape,
                   pos := s1.head_position, msg := .maxStepsReached }], s1)
  else (results, s)

/-- `TuringMachine.run`: reset, loop, then the step-limit check. -/
def run (M : Machine) (input_string : String) (max_steps : Nat) :
    Except String (List StepResult × MState) :=
  match reset M input_string with
  | .error e => .error e
  | .ok s0 =>
    match run_loop M max_steps s0 [] with
    | .error e => .error e
    | .ok (results, s1) => .ok (run_finalize M max_steps results s1)

/-- `TuringMachine.get_status`: first calls `_ensure_tape_bounds` (mutating
the run state), then returns the status dictionary together with the
(possibly updated) run state. -/
def get_status (M : Machine) (s : MState) : Status × MState :=
  let p := ensure_tape_bounds M.blank_symbol s.tape s.head_position
  let s1 : MState := { s with tape := p.1, head_position := p.2 }
  ({ state := s1.current_state, tape := s1.tape, head := s1.head_position,
     step := s1.step_count,
     is_accepting := M.accept_states.contains s1.current_state,
     is_rejecting := M.reject_states.contains s1.current_state,
     is_running := !(M.accept_states.contains s1.current_state) &&
                   !(M.reject_states.contains s1.current_state) }, s1)

/-- `validate_input_string` from `utils.py`.  The Python error message embeds
`sorted(invalid_symbols)`; the model returns that sorted list of distinct
out-of-alphabet symbols directly (empty when the string is valid). -/
def validate_input_string (input_string : List Char) (alphabet : List Char) :
    Bool × List Char :=
  if input_string = [] then (true, [])
  else
    let invalid_symbols :=
      (input_string.filter (fun c => !(alphabet.contains c))).dedup
    if invalid_symbols ≠ [] then
      (false, List.insertionSort (fun a b => a ≤ b) invalid_symbols)
    else (true, [])

/-- `REGEX_1_TRANSITIONS` from `transitions.py`: (a|b)*abb. -/
def REGEX_1_TRANSITIONS : List ((String × Char) × (String × Char × Char)) :=
  [ (("q0", 'a'), ("q1", 'a', 'R')),
    (("q0", 'b'), ("q0", 'b', 'R')),
    (("q0", '_'), ("qr", '_', 'S')),
    (("q1", 'a'), ("q1", 'a', 'R')),
    (("q1", 'b'), ("q2", 'b', 'R')),
    (("q1", '_'), ("qr", '_', 'S')),
    (("q2", 'a'), ("q1", 'a', 'R')),
    (("q2", 'b'), ("q3", 'b', 'R')),
    (("q2", '_'), ("qr", '_', 'S')),
    (("q3", 'a'), ("q1", 'a', 'R')),
    (("q3", 'b'), ("q0", 'b', 'R')),
    (("q3", '_'), ("qa", '_', 'S')) ]

/-- `REGEX_1_CONFIG` from `transitions.py`, as a `Machine` value. -/
def REGEX_1_CONFIG : Machine :=
  { states := ["q0", "q1", "q2", "q3", "qa", "qr"],
    alphabet := ['a', 'b'],
    tape_alphabet := ['a', 'b', '_'],
    transitions := REGEX_1_TRANSITIONS,
    initial_state := "q0",
    accept_states := ["qa"],
    reject_states := ["qr"],
    blank_symbol := '_' }

/-- A machine with no reject states and no transitions (constructible: the
constructor only validates the blank symbol). -/
def Mempty : Machine :=
  { states := ["q0"], alphabet := [], tape_alphabet := ['_'], transitions := [],
    initial_state := "q0", accept_states := [], reject_states := [],
    blank_symbol := '_' }

/-- A machine that accepts in exactly one step: `delta(q0, _) = (qa, _, S)`. -/
def Macc5 : Machine :=
  { states := ["q0", "qa", "qr"], alphabet := [], tape_alphabet := ['_'],
    transitions := [(("q0", '_'), ("qa", '_', 'S'))], initial_state := "q0",
    accept_states := ["qa"], reject_states := ["qr"], blank_symbol := '_' }

/-- A machine that loops forever, moving right over blanks. -/
def M2 : Machine :=
  { states := ["q0", "qa", "qr"], alphabet := [], tape_alphabet := ['_'],
    transitions := [(("q0", '_'), ("q0", '_', 'R'))], initial_state := "q0",
    accept_states := ["qa"], reject_states := ["qr"], blank_symbol := '_' }

/-- A machine whose initial state is already an accept state. -/
def Minit_acc : Machine :=
  { states := ["qa", "qr"], alphabet := [], tape_alphabet := ['_'],
    transitions := [], initial_state := "qa", accept_states := ["qa"],
    reject_states := ["qr"], blank_symbol := '_' }

/-- The run states the engine itself can put a machine in: the freshly
constructed state, the state after `reset`, after a successful `step`, after
the tape-bounds adjustment done by `get_status`, and after the
current-state override performed by `run` at the step limit. -/
inductive Reachable (M : Machine) : MState → Prop where
| fresh : Reachable M (freshState M)
| reset : ∀ (input : String) (s : MState),
    TM.reset M input = Except.ok s → Reachable M s
| step : ∀ (s s1 : MState), Reachable M s →
    (TM.step M s).toOption.map Prod.snd = some s1 → Reachable M s1
| status : ∀ (s : MState), Reachable M s → Reachable M (TM.get_status M s).2
| force : ∀ (s : MState) (q : String), Reachable M s →
    Reachable M { s with current_state := q }

/-- The run state after `reset("")` on `M2`. -/
def C2s0 : MState :=
  match reset M2 "" with
  | .ok s => s
  | .error _ => freshState M2

/-- The run state after one more `step()` on `M2`. -/
def C2next (s : MState) : MState :=
  match step M2 s with
  | .ok p => p.2
  | .error _ => freshState M2

/-- The run state of `M2` after `reset("")` and five steps: the head sits at
index 10 on a 10-cell tape. -/
def C2s5 : MState := C2next (C2next (C2next (C2next (C2next C2s0))))

/-- The results list produced by the one-step accepting machine on maxSteps 1. -/
def C5rs : List StepResult :=
  match run Macc5 "" 1 with
  | .ok p => p.1
  | .error _ => []

/-- The final run state produced by the one-step accepting machine on
maxSteps 1. -/
def C5sF : MState :=
  match run Macc5 "" 1 with
  | .ok p => p.2
  | .error _ => freshState Macc5

/-- Modelled from the spec: the run state that C6 claims `reset(input)`
produces — margins of 5 blanks around the input, head at 5, initial state,
step count 0, and a single history entry capturing this configuration. -/
def resetSpecConfig (M : Machine) (input : String) : MState :=
  { tape := List.replicate 5 M.blank_symbol ++ input.toList ++
      List.replicate 5 M.blank_symbol,
    head_position := 5,
    current_state := M.initial_state,
    history := [{ step := 0, state := M.initial_state,
                  tape := List.replicate 5 M.blank_symbol ++ input.toList ++
                    List.replicate 5 M.blank_symbol,
                  head := 5,
                  symbol := input.toList.headD M.blank_symbol }],
    step_count := 0 }


theorem ensure_snd (blank : Char) (t : List Char) (h : Int) :
    (ensure_tape_bounds blank t h).2 = if h < 0 then h + 5 else h := by
  simp only [ensure_tape_bounds]
  split <;> rfl

theorem ensure_snd_nonneg (blank : Char) (t : List Char) (h : Int)
    (hh : -1 ≤ h) : 0 ≤ (ensure_tape_bounds blank t h).2 := by
  rw [ensure_snd]
  split <;> omega

theorem ensure_snd_lt_length (blank : Char) (t : List Char) (h : Int) :
    (ensure_tape_bounds blank t h).2 <
      ((ensure_tape_bounds blank t h).1.length : Int) := by
  unfold ensure_tape_bounds
  split <;> (push_cast [List.length_append, List.length_replicate]; omega)

theorem ensure_in_range (blank : Char) (t : List Char) (h : Int)
    (h0 : 0 ≤ h) (h1 : h < (t.length : Int)) :
    ensure_tape_bounds blank t h = (t, h) := by
  simp only [ensure_tape_bounds]
  rw [if_neg (by omega)]
  rw [show (h + 1 - ((t.length : Int))).toNat = 0 from by omega]
  simp

theorem pyIndex_ok (t : List Char) (i : Int) (h0 : 0 ≤ i)
    (h1 : i < (t.length : Int)) :
    pyIndex t i = Except.ok (t.getD i.toNat ' ') := by
  simp only [pyIndex]
  rw [if_neg (by omega : ¬ i < 0)]
  rw [if_pos ⟨h0, h1⟩]

theorem save_configuration_ok (M : Machine) (s s' : MState)
    (h : save_configuration M s = Except.ok s') :
    s'.tape = s.tape ∧ s'.head_position = s.head_position ∧
    s'.current_state = s.current_state ∧ s'.step_count = s.step_count ∧
    s'.history.length = s.history.length + 1 := by
  unfold save_configuration at h
  split at h
  · exact Except.noConfusion h
  · rw [Except.ok.injEq] at h
    subst h
    simp

theorem contains_headD_of_ne_nil (l : List String) (h : l ≠ []) :
    l.contains (l.headD "qr") = true := by
  cases l with
  | nil => exact absurd rfl h
  | cons a t => simp [List.headD]

theorem step_of_accept (M : Machine) (s : MState)
    (h : M.accept_states.contains s.current_state = true) :
    step M s = Except.ok
      ({ cont := false, state := s.current_state, tape := s.tape,
         pos := s.head_position, msg := Msg.accepted }, s) := by
  unfold step
  rw [h]
  rfl

theorem step_of_reject (M : Machine) (s : MState)
    (ha : M.accept_states.contains s.current_state = false)
    (hr : M.reject_states.contains s.current_state = true) :
    step M s = Except.ok
      ({ cont := false, state := s.current_state, tape := s.tape,
         pos := s.head_position, msg := Msg.rejected }, s) := by
  unfold step
  rw [ha, hr]
  rfl

/-- Shape of every successful `step` call: the returned result mirrors the
fields of the post-step state, the step count grows by at most one (by exactly
one when the machine continues), the step-limit signal is never produced by
`step`, and a terminal result is an accept, an explicit reject, or the
undefined-transition reject. -/
theorem step_shape (M : Machine) (s : MState) (r : StepResult) (s' : MState)
    (hstep : step M s = Except.ok (r, s')) :
    r.state = s'.current_state ∧ r.tape = s'.tape ∧ r.pos = s'.head_position ∧
    s.step_count ≤ s'.step_count ∧ s'.step_count ≤ s.step_count + 1 ∧
    (r.cont = true → s'.step_count = s.step_count + 1) ∧
    r.msg ≠ Msg.maxStepsReached ∧
    (r.cont = false →
      ((r.msg = Msg.accepted ∧
          M.accept_states.contains s'.current_state = true) ∨
       (r.msg = Msg.rejected ∧
          M.accept_states.contains s'.current_state = false ∧
          M.reject_states.contains s'.current_state = true) ∨
       (r.msg = Msg.noTransition ∧
          s'.current_state = M.reject_states.headD "qr"))) := by
  simp only [step] at hstep
  split at hstep
  · rename_i hacc
    rw [Except.ok.injEq, Prod.mk.injEq] at hstep
    obtain ⟨hr, hs⟩ := hstep
    subst hr
    subst hs
    exact ⟨rfl, rfl, rfl, Nat.le_refl _, Nat.le_succ _,
           fun h => Bool.noConfusion h, fun h => Msg.noConfusion h,
           fun _ => Or.inl ⟨rfl, hacc⟩⟩
  · rename_i hacc
    split at hstep
    · rename_i hrej
      rw [Except.ok.injEq, Prod.mk.injEq] at hstep
      obtain ⟨hr, hs⟩ := hstep
      subst hr
      subst hs
      rw [Bool.not_eq_true] at hacc
      exact ⟨rfl, rfl, rfl, Nat.le_refl _, Nat.le_succ _,
             fun h => Bool.noConfusion h, fun h => Msg.noConfusion h,
             fun _ => Or.inr (Or.inl ⟨rfl, hacc, hrej⟩)⟩
    · split at hstep
      · exact Except.noConfusion hstep
      · split at hstep
        · split at hstep
          · exact Except.noConfusion hstep
          · rename_i s3 hsave
            rw [Except.ok.injEq, Prod.mk.injEq] at hstep
            obtain ⟨hr, hs⟩ := hstep
            subst hr
            subst hs
            obtain ⟨ht3, hh3, hc3, hn3, _⟩ := save_configuration_ok _ _ _ hsave
            exact ⟨rfl, rfl, rfl, by rw [hn3], by rw [hn3]; exact Nat.le_succ _,
                   fun h => Bool.noConfusion h, fun h => Msg.noConfusion h,
                   fun _ => Or.inr (Or.inr ⟨rfl, hc3⟩)⟩
        · rename_i new_state write_symbol direction htr
          split at hstep
          · exact Except.noConfusion hstep
          · split at hstep
            · exact Except.noConfusion hstep
            · split at hstep
              · exact Except.noConfusion hstep
              · rename_i s3 hsave
                obtain ⟨ht3, hh3, hc3, hn3, _⟩ := save_configuration_ok _ _ _ hsave
                split at hstep
                · rename_i hacc3
                  rw [Except.ok.injEq, Prod.mk.injEq] at hstep
                  obtain ⟨hr, hs⟩ := hstep
                  subst hr
                  subst hs
                  exact ⟨rfl, rfl, rfl, by rw [hn3]; exact Nat.le_succ _, by rw [hn3],
                         fun h => Bool.noConfusion h, fun h => Msg.noConfusion h,
                         fun _ => Or.inl ⟨rfl, hacc3⟩⟩
                · rename_i hacc3
                  split at hstep
                  · rename_i hrej3
                    rw [Except.ok.injEq, Prod.mk.injEq] at hstep
                    obtain ⟨hr, hs⟩ := hstep
                    subst hr
                    subst hs
                    rw [Bool.not_eq_true] at hacc3
                    exact ⟨rfl, rfl, rfl, by rw [hn3]; exact Nat.le_succ _, by rw [hn3],
                           fun h => Bool.noConfusion h, fun h => Msg.noConfusion h,
                           fun _ => Or.inr (Or.inl ⟨rfl, hacc3, hrej3⟩)⟩
                  · rw [Except.ok.injEq, Prod.mk.injEq] at hstep
                    obtain ⟨hr, hs⟩ := hstep
                    subst hr
                    subst hs
                    exact ⟨rfl, rfl, rfl, by rw [hn3]; exact Nat.le_succ _, by rw [hn3],
                           fun _ => by rw [hn3], fun h => Msg.noConfusion h,
                           fun h => Bool.noConfusion h⟩

/-- C4, counterexample: a definition whose accept and reject state sets both
equal `{q0}` (overlapping) and whose initial state `qX` is not a member of the
state set is accepted by the constructor without any error, because the code
only validates the blank symbol.  This refutes the claim that construction
raises a configuration error on overlap or on an unknown initial state. -/
theorem C4_counterexample :
    mkTuringMachine ["q0"] [] ['_'] [] "qX" ["q0"] ["q0"] '_' =
      Except.ok { states := ["q0"], alphabet := [], tape_alphabet := ['_'],
                  transitions := [], initial_state := "qX",
                  accept_states := ["q0"], reject_states := ["q0"],
                  blank_symbol := '_' } ∧
    (["q0"] : List String).contains "qX" = false := by
  decide

/-- C4 (amended): construction fails if and only if the blank symbol is not a
member of the tape alphabet; the accept/reject overlap and the membership of
the initial state in the state set are not checked, and construction succeeds
regardless of them whenever the blank symbol is in the tape alphabet. -/
theorem C4_construction_iff (states : List String) (alphabet : List Char)
    (tape_alphabet : List Char)
    (transitions : List ((String × Char) × (String × Char × Char)))
    (initial_state : String) (accept_states reject_states : List String)
    (blank_symbol : Char) :
    (∃ M : Machine, mkTuringMachine states alphabet tape_alphabet transitions
        initial_state accept_states reject_states blank_symbol = Except.ok M) ↔
      tape_alphabet.contains blank_symbol = true := by
  unfold mkTuringMachine
  constructor
  · rintro ⟨M, hM⟩
    by_contra hc
    rw [Bool.not_eq_true] at hc
    rw [hc] at hM
    simp at hM
  · intro h
    rw [h]
    exact ⟨_, rfl⟩

/-- Witness for C4 at a concrete well-formed argument tuple: construction
succeeds exactly because the blank symbol is in the tape alphabet. -/
theorem C4_witness :
    (∃ M : Machine, mkTuringMachine ["q0"] [] ['_'] [] "q0" [] [] '_' =
      Except.ok M) ↔ (['_'] : List Char).contains '_' = true :=
  C4_construction_iff ["q0"] [] ['_'] [] "q0" [] [] '_'

/-- C8: with the `(a|b)*abb` sample definition (`REGEX_1_CONFIG`), running on
input `"aabb"` terminates in the accept state `qa` with the accepted signal as
the last step result, and running on `"ab"` terminates in the reject state
`qr` with the rejected signal. -/
theorem C8_regex1_scenarios :
    (run REGEX_1_CONFIG "aabb" 1000).toOption.map
        (fun p => (p.2.current_state,
                   REGEX_1_CONFIG.accept_states.contains p.2.current_state,
                   p.1.getLast?.map StepResult.msg)) =
      some ("qa", true, some Msg.accepted) ∧
    (run REGEX_1_CONFIG "ab" 1000).toOption.map
        (fun p => (p.2.current_state,
                   REGEX_1_CONFIG.reject_states.contains p.2.current_state,
                   p.1.getLast?.map StepResult.msg)) =
      some ("qr", true, some Msg.rejected) := by
  constructor
  · rfl
  · rfl

/-- C10, counterexample: on a freshly constructed machine whose initial state
is already an accept state, `step()` returns the terminal result over the
*empty* tape without lazily extending it, whereas over a one-cell all-blank
tape the same call returns the one-cell tape — so the claimed unconditional
lazy extension and the equivalence with an all-blank tape fail. -/
theorem C10_counterexample :
    (step Minit_acc (freshState Minit_acc)).toOption.map
        (fun p => (p.1.cont, p.1.tape, p.2.tape)) =
      some (false, [], []) ∧
    (step Minit_acc { freshState Minit_acc with tape := ['_'] }).toOption.map
        (fun p => p.1.tape) = some ['_'] := by
  decide

/-- C1, counterexample: on a machine whose reject-state set is empty, after
`step()` has reported `continue=false` (via the undefined-transition branch,
synthesizing the state `qr`), the next call to `step()` appends another entry
to the history — the history grows from 1 to 2 entries — so the subsequent
call is not mutation-free as claimed. -/
theorem C1_counterexample :
    ((step Mempty (freshState Mempty)).bind (fun p =>
      (step Mempty p.2).map (fun q =>
        (p.1.cont, p.1.msg, p.2.history.length, q.2.history.length)))) =
      Except.ok (false, Msg.noTransition, 1, 2) := by
  decide

/-- C3, counterexample: on a machine whose reject-state set is empty, an
undefined transition does not raise any error: `step()` returns normally with
`continue=false` and moves the current state to the synthesized literal
`'qr'`, which is not even a member of the machine's state set.  This refutes
the claim that an unrecoverable configuration error is raised. -/
theorem C3_counterexample :
    Mempty.reject_states = [] ∧
    (step Mempty (freshState Mempty)).toOption.map
        (fun p => (p.1.cont, p.1.msg, p.2.current_state,
                   Mempty.states.contains p.2.current_state)) =
      some (false, Msg.noTransition, "qr", false) := by
  decide

/-- C5, counterexample: on a machine that accepts in exactly one step, run
with `maxSteps = 1`, the machine reaches the terminal accepted outcome (it is
not "still running"), yet because `step_count >= max_steps` holds after the
loop the engine still forces the reject outcome with the step-limit signal
and overrides the current state to `qr`.  The forced reject is therefore not
equivalent to "maxSteps exhausted while still running". -/
theorem C5_counterexample :
    (run Macc5 "" 1).toOption.map
        (fun p => (p.1.map StepResult.msg, p.2.current_state)) =
      some ([Msg.accepted, Msg.maxStepsReached], "qr") ∧
    Macc5.accept_states.contains "qa" = true := by
  decide

theorem getD_replicate_lt (n i : Nat) (a d : Char) (h : i < n) :
    (List.replicate n a).getD i d = a := by
  rw [List.getD_eq_getElem _ _ (by simpa using h)]
  simp

/-- After a successful `step`, the head position is at least -1 whenever it
was at least -1 before (it becomes nonnegative before any move, and a move
shifts it by at most one cell). -/
theorem step_head_ge (M : Machine) (s : MState) (r : StepResult) (s' : MState)
    (hstep : step M s = Except.ok (r, s')) (hh : -1 ≤ s.head_position) :
    -1 ≤ s'.head_position := by
  have hnn := ensure_snd_nonneg M.blank_symbol s.tape s.head_position hh
  simp only [step] at hstep
  split at hstep
  · rw [Except.ok.injEq, Prod.mk.injEq] at hstep
    obtain ⟨hr, hs⟩ := hstep
    subst hs
    exact hh
  · split at hstep
    · rw [Except.ok.injEq, Prod.mk.injEq] at hstep
      obtain ⟨hr, hs⟩ := hstep
      subst hs
      exact hh
    · split at hstep
      · exact Except.noConfusion hstep
      · split at hstep
        · split at hstep
          · exact Except.noConfusion hstep
          · rename_i s3 hsave
            rw [Except.ok.injEq, Prod.mk.injEq] at hstep
            obtain ⟨hr, hs⟩ := hstep
            subst hs
            obtain ⟨_, hh3, _, _, _⟩ := save_configuration_ok _ _ _ hsave
            rw [hh3]
            show -1 ≤ (ensure_tape_bounds M.blank_symbol s.tape s.head_position).2
            omega
        · rename_i new_state write_symbol direction htr
          split at hstep
          · exact Except.noConfusion hstep
          · split at hstep
            · exact Except.noConfusion hstep
            · rename_i h2 heq
              split at hstep
              · exact Except.noConfusion hstep
              · rename_i s3 hsave
                obtain ⟨_, hh3, _, _, _⟩ := save_configuration_ok _ _ _ hsave
                have hd : h2 = (ensure_tape_bounds M.blank_symbol s.tape s.head_position).2 + 1 ∨
                    h2 = (ensure_tape_bounds M.blank_symbol s.tape s.head_position).2 - 1 ∨
                    h2 = (ensure_tape_bounds M.blank_symbol s.tape s.head_position).2 := by
                  split at heq
                  · rw [Except.ok.injEq] at heq
                    exact Or.inl heq.symm
                  · split at heq
                    · rw [Except.ok.injEq] at heq
                      exact Or.inr (Or.inl heq.symm)
                    · split at heq
                      · rw [Except.ok.injEq] at heq
                        exact Or.inr (Or.inr heq.symm)
                      · exact Except.noConfusion heq
                have hfin : s'.head_position = h2 := by
                  split at hstep
                  · rw [Except.ok.injEq, Prod.mk.injEq] at hstep
                    obtain ⟨hr, hs⟩ := hstep
                    subst hs
                    exact hh3
                  · split at hstep
                    · rw [Except.ok.injEq, Prod.mk.injEq] at hstep
                      obtain ⟨hr, hs⟩ := hstep
                      subst hs
                      exact hh3
                    · rw [Except.ok.injEq, Prod.mk.injEq] at hstep
                      obtain ⟨hr, hs⟩ := hstep
                      subst hs
                      exact hh3
                rw [hfin]
                rcases hd with hd | hd | hd <;> omega

/-- Every reachable run state has head position at least -1. -/
theorem reachable_head_ge (M : Machine) (s : MState) (h : Reachable M s) :
    -1 ≤ s.head_position := by
  induction h with
  | fresh => show (-1 : Int) ≤ 0; omega
  | reset input s hres =>
    obtain ⟨_, hh, _, _, _⟩ := save_configuration_ok _ _ _ hres
    rw [hh]
    show (-1 : Int) ≤ 5
    omega
  | step s s1 _ hstep ih =>
    cases e : TM.step M s with
    | error err => rw [e] at hstep; simp [Except.toOption] at hstep
    | ok p =>
      rw [e] at hstep
      simp only [Except.toOption, Option.map_some'] at hstep
      rw [Option.some.injEq] at hstep
      subst hstep
      exact step_head_ge M s p.1 p.2 (by rw [e]) ih
  | status s _ ih =>
    have hnn := ensure_snd_nonneg M.blank_symbol s.tape s.head_position ih
    show -1 ≤ (ensure_tape_bounds M.blank_symbol s.tape s.head_position).2
    omega
  | force s q _ ih => exact ih


/-- Out-of-range tape-bounds adjustment, fully characterized for head
positions >= -1 (all reachable ones): the new tape is exactly a block of
blanks prepended (5 when the head was negative, else none), the old tape
unchanged, and a block of blanks appended; the head shifts by the prepended
amount; and if the head was out of range, the cell now under the head reads
as the blank symbol. -/
theorem ensure_spec (blank : Char) (t : List Char) (h : Int) (hh : -1 ≤ h) :
    (ensure_tape_bounds blank t h).1 =
      List.replicate (if h < 0 then 5 else 0) blank ++ t ++
        List.replicate ((ensure_tape_bounds blank t h).1.length -
          ((if h < 0 then 5 else 0) + t.length)) blank ∧
    (ensure_tape_bounds blank t h).2 = h + (if h < 0 then 5 else 0) ∧
    ((h < 0 ∨ (t.length : Int) ≤ h) →
      pyIndex (ensure_tape_bounds blank t h).1
          (ensure_tape_bounds blank t h).2 = Except.ok blank) := by
  by_cases hneg : h < 0
  · have hm1 : h = -1 := by omega
    subst hm1
    have e1 : ensure_tape_bounds blank t (-1) = (List.replicate 5 blank ++ t, 4) := by
      simp only [ensure_tape_bounds]
      norm_num
    rw [e1]
    norm_num
    rw [pyIndex_ok _ 4 (by omega) (by simp; omega)]
    rw [show ((4 : Int)).toNat = 4 from rfl]
    rw [List.getD_append _ _ _ _ (by simp)]
    rw [getD_replicate_lt 5 4 blank ' ' (by omega)]
  · push_neg at hneg
    by_cases hlt : h < (t.length : Int)
    · rw [ensure_in_range blank t h hneg hlt]
      simp only [if_neg (show ¬ h < 0 from by omega)]
      refine ⟨by simp, by simp, ?_⟩
      intro hc
      rcases hc with hc | hc <;> omega
    · push_neg at hlt
      have e2 : ensure_tape_bounds blank t h =
          (t ++ List.replicate (h + 1 - ((t.length : Nat) : Int)).toNat blank, h) := by
        simp only [ensure_tape_bounds]
        rw [if_neg (show ¬ h < 0 from by omega)]
      rw [e2]
      simp only [if_neg (show ¬ h < 0 from by omega)]
      refine ⟨?_, by simp, ?_⟩
      · simp [List.length_append, List.length_replicate]
      · intro _
        rw [pyIndex_ok _ h hneg
          (by simp only [List.length_append, List.length_replicate]; push_cast; omega)]
        rw [List.getD_append_right _ _ _ _ (by omega)]
        rw [getD_replicate_lt _ _ blank ' ' (by omega)]


/-- C7: tape extension never loses content — for every reachable
configuration, `_ensure_tape_bounds` produces exactly a block of blanks
prepended (5 cells when the head was negative, otherwise none), the original
tape unchanged in the middle, and a block of blanks appended; the head is
shifted by the prepended amount; and whenever the head was out of range, the
cell at the (shifted) head position after the extension is the blank
symbol. -/
theorem C7_tape_extension (M : Machine) (s : MState) (hreach : Reachable M s) :
    (ensure_tape_bounds M.blank_symbol s.tape s.head_position).1 =
      List.replicate (if s.head_position < 0 then 5 else 0) M.blank_symbol ++
        s.tape ++
        List.replicate
          ((ensure_tape_bounds M.blank_symbol s.tape s.head_position).1.length -
            ((if s.head_position < 0 then 5 else 0) + s.tape.length))
          M.blank_symbol ∧
    (ensure_tape_bounds M.blank_symbol s.tape s.head_position).2 =
      s.head_position + (if s.head_position < 0 then 5 else 0) ∧
    ((s.head_position < 0 ∨ (s.tape.length : Int) ≤ s.head_position) →
      pyIndex (ensure_tape_bounds M.blank_symbol s.tape s.head_position).1
          (ensure_tape_bounds M.blank_symbol s.tape s.head_position).2 =
        Except.ok M.blank_symbol) :=
  ensure_spec M.blank_symbol s.tape s.head_position (reachable_head_ge M s hreach)

/-- Witness for C7 at the freshly constructed looping machine `M2`: its empty
tape with head 0 is out of range, the extension appends exactly one blank,
and the cell under the head is then blank. -/
theorem C7_witness :
    (ensure_tape_bounds M2.blank_symbol (freshState M2).tape
        (freshState M2).head_position).1 =
      List.replicate (if (freshState M2).head_position < 0 then 5 else 0)
          M2.blank_symbol ++ (freshState M2).tape ++
        List.replicate
          ((ensure_tape_bounds M2.blank_symbol (freshState M2).tape
              (freshState M2).head_position).1.length -
            ((if (freshState M2).head_position < 0 then 5 else 0) +
              (freshState M2).tape.length)) M2.blank_symbol ∧
    (ensure_tape_bounds M2.blank_symbol (freshState M2).tape
        (freshState M2).head_position).2 =
      (freshState M2).head_position +
        (if (freshState M2).head_position < 0 then 5 else 0) ∧
    (((freshState M2).head_position < 0 ∨
        ((freshState M2).tape.length : Int) ≤ (freshState M2).head_position) →
      pyIndex (ensure_tape_bounds M2.blank_symbol (freshState M2).tape
            (freshState M2).head_position).1
          (ensure_tape_bounds M2.blank_symbol (freshState M2).tape
            (freshState M2).head_position).2 = Except.ok M2.blank_symbol) :=
  C7_tape_extension M2 (freshState M2) Reachable.fresh

/-- C1 (amended): once `step()` has reported `continue=false`, provided the
reject-state set is nonempty, every subsequent call returns the same run
state unchanged (so neither tape, head, state, history nor step count moves)
with `continue=false` and the same state, tape and head fields; the full
result including the message is identical except that a result produced by
the undefined-transition branch is afterwards reported with the generic
rejected (or accepted, on overlap) message. -/
theorem C1_halt_idempotent (M : Machine) (s : MState) (r1 : StepResult)
    (s1 : MState) (h1 : step M s = Except.ok (r1, s1)) (h2 : r1.cont = false)
    (h3 : M.reject_states ≠ []) :
    ∃ r2 : StepResult,
      step M s1 = Except.ok (r2, s1) ∧ r2.cont = false ∧
      r2.state = r1.state ∧ r2.tape = r1.tape ∧ r2.pos = r1.pos ∧
      (r1.msg ≠ Msg.noTransition → r2 = r1) := by
  obtain ⟨hst, htp, hps, _, _, _, _, hterm⟩ := step_shape M s r1 s1 h1
  rcases hterm h2 with ⟨hm, hacc⟩ | ⟨hm, hnacc, hrej⟩ | ⟨hm, hsyn⟩
  · refine ⟨_, step_of_accept M s1 hacc, rfl, hst.symm, htp.symm, hps.symm, ?_⟩
    intro _
    obtain ⟨c, st, tp, ps, m⟩ := r1
    simp_all
  · refine ⟨_, step_of_reject M s1 hnacc hrej, rfl, hst.symm, htp.symm,
            hps.symm, ?_⟩
    intro _
    obtain ⟨c, st, tp, ps, m⟩ := r1
    simp_all
  · have hrej : M.reject_states.contains s1.current_state = true := by
      rw [hsyn]
      exact contains_headD_of_ne_nil _ h3
    by_cases hA : M.accept_states.contains s1.current_state = true
    · refine ⟨_, step_of_accept M s1 hA, rfl, hst.symm, htp.symm, hps.symm, ?_⟩
      intro hne
      exact absurd hm hne
    · rw [Bool.not_eq_true] at hA
      refine ⟨_, step_of_reject M s1 hA hrej, rfl, hst.symm, htp.symm,
              hps.symm, ?_⟩
      intro hne
      exact absurd hm hne

/-- Witness for C1 at `Minit_acc` (initial state accepting, nonempty reject
set): the first step halts and the second step returns the same state and
result. -/
theorem C1_witness :
    ∃ r2 : StepResult,
      step Minit_acc (freshState Minit_acc) = Except.ok (r2, freshState Minit_acc) ∧
      r2.cont = false ∧
      r2.state = ({ cont := false, state := "qa", tape := [], pos := 0,
                    msg := Msg.accepted } : StepResult).state ∧
      r2.tape = ({ cont := false, state := "qa", tape := [], pos := 0,
                   msg := Msg.accepted } : StepResult).tape ∧
      r2.pos = ({ cont := false, state := "qa", tape := [], pos := 0,
                  msg := Msg.accepted } : StepResult).pos ∧
      (({ cont := false, state := "qa", tape := [], pos := 0,
          msg := Msg.accepted } : StepResult).msg ≠ Msg.noTransition →
        r2 = { cont := false, state := "qa", tape := [], pos := 0,
               msg := Msg.accepted }) :=
  C1_halt_idempotent Minit_acc (freshState Minit_acc)
    { cont := false, state := "qa", tape := [], pos := 0, msg := Msg.accepted }
    (freshState Minit_acc) (by decide) (by decide) (by decide)

/-- C2 (amended): whenever the head is inside the tape buffer — which
`get_status` itself reestablishes, but which a step may transiently break —
`get_status` mutates nothing and returns exactly the current state, a tape
snapshot, the head position, the step count, and the three boolean flags. -/
theorem C2_get_status_pure (M : Machine) (s : MState)
    (h0 : 0 ≤ s.head_position) (h1 : s.head_position < (s.tape.length : Int)) :
    get_status M s =
      ({ state := s.current_state, tape := s.tape, head := s.head_position,
         step := s.step_count,
         is_accepting := M.accept_states.contains s.current_state,
         is_rejecting := M.reject_states.contains s.current_state,
         is_running := !(M.accept_states.contains s.current_state) &&
                       !(M.reject_states.contains s.current_state) }, s) := by
  simp only [get_status]
  rw [ensure_in_range M.blank_symbol s.tape s.head_position h0 h1]

/-- Witness for C2 at a one-cell in-range run state of `M2`. -/
theorem C2_witness :
    get_status M2 { tape := ['_'], head_position := 0, current_state := "q0",
                    history := [], step_count := 0 } =
      ({ state := "q0", tape := ['_'], head := 0, step := 0,
         is_accepting := false, is_rejecting := false, is_running := true },
       { tape := ['_'], head_position := 0, current_state := "q0",
         history := [], step_count := 0 }) :=
  C2_get_status_pure M2
    { tape := ['_'], head_position := 0, current_state := "q0",
      history := [], step_count := 0 } (by norm_num) (by norm_num)


/-- C3 (amended): when `step()` runs in a non-terminal state and no
transition is defined for (state, symbol under the head), the engine sets the
current state to the first member of `reject_states` and returns
`continue=false` with the no-transition signal — and when `reject_states` is
empty it does *not* raise: it silently synthesizes the literal state `qr`
and returns the same signal. -/
theorem C3_undefined_transition (M : Machine) (s : MState) (sym : Char)
    (ha : M.accept_states.contains s.current_state = false)
    (hr : M.reject_states.contains s.current_state = false)
    (hsym : pyIndex (ensure_tape_bounds M.blank_symbol s.tape s.head_position).1
              (ensure_tape_bounds M.blank_symbol s.tape s.head_position).2 =
            Except.ok sym)
    (hlook : List.lookup (s.current_state, sym) M.transitions = none) :
    step M s = Except.ok
      ({ cont := false, state := M.reject_states.headD "qr",
         tape := (ensure_tape_bounds M.blank_symbol s.tape s.head_position).1,
         pos := (ensure_tape_bounds M.blank_symbol s.tape s.head_position).2,
         msg := Msg.noTransition },
       { tape := (ensure_tape_bounds M.blank_symbol s.tape s.head_position).1,
         head_position :=
           (ensure_tape_bounds M.blank_symbol s.tape s.head_position).2,
         current_state := M.reject_states.headD "qr",
         history := s.history ++
           [{ step := s.step_count, state := M.reject_states.headD "qr",
              tape := (ensure_tape_bounds M.blank_symbol s.tape
                s.head_position).1,
              head := (ensure_tape_bounds M.blank_symbol s.tape
                s.head_position).2,
              symbol := sym }],
         step_count := s.step_count }) ∧
    (M.reject_states ≠ [] →
      M.reject_states.contains (M.reject_states.headD "qr") = true) ∧
    (M.reject_states = [] → M.reject_states.headD "qr" = "qr") := by
  refine ⟨?_, fun h => contains_headD_of_ne_nil _ h, fun h => by rw [h]; rfl⟩
  simp only [step, ha, hr, Bool.false_eq_true, if_false, hsym, hlook]
  simp only [save_configuration,
    if_pos (ensure_snd_lt_length M.blank_symbol s.tape s.head_position), hsym]

/-- Witness for C3 at `Mempty`'s fresh state: no transition is defined for
(q0, blank), the reject set is empty, and the call returns normally with the
synthesized state. -/
theorem C3_witness :
    step Mempty (freshState Mempty) = Except.ok
      ({ cont := false, state := Mempty.reject_states.headD "qr",
         tape := (ensure_tape_bounds Mempty.blank_symbol (freshState Mempty).tape
           (freshState Mempty).head_position).1,
         pos := (ensure_tape_bounds Mempty.blank_symbol (freshState Mempty).tape
           (freshState Mempty).head_position).2,
         msg := Msg.noTransition },
       { tape := (ensure_tape_bounds Mempty.blank_symbol (freshState Mempty).tape
           (freshState Mempty).head_position).1,
         head_position := (ensure_tape_bounds Mempty.blank_symbol
           (freshState Mempty).tape (freshState Mempty).head_position).2,
         current_state := Mempty.reject_states.headD "qr",
         history := (freshState Mempty).history ++
           [{ step := (freshState Mempty).step_count,
              state := Mempty.reject_states.headD "qr",
              tape := (ensure_tape_bounds Mempty.blank_symbol
                (freshState Mempty).tape (freshState Mempty).head_position).1,
              head := (ensure_tape_bounds Mempty.blank_symbol
                (freshState Mempty).tape (freshState Mempty).head_position).2,
              symbol := '_' }],
         step_count := (freshState Mempty).step_count }) ∧
    (Mempty.reject_states ≠ [] →
      Mempty.reject_states.contains (Mempty.reject_states.headD "qr") = true) ∧
    (Mempty.reject_states = [] → Mempty.reject_states.headD "qr" = "qr") :=
  C3_undefined_transition Mempty (freshState Mempty) '_' (by decide) (by decide)
    (by decide) (by decide)

/-- C9: `validate_input_string` returns valid (with an empty invalid-symbol
list) exactly when every character of the string belongs to the alphabet (in
particular for the empty string), and otherwise returns invalid together with
the sorted duplicate-free list of exactly the out-of-alphabet symbols of the
string. -/
theorem C9_validate_spec (s A : List Char) :
    ((validate_input_string s A).1 = true ↔ ∀ c ∈ s, c ∈ A) ∧
    ((validate_input_string s A).1 = true → (validate_input_string s A).2 = []) ∧
    ((validate_input_string s A).1 = false →
      (validate_input_string s A).2.Sorted (fun a b => a ≤ b) ∧
      (validate_input_string s A).2.Nodup ∧
      ∀ c : Char, c ∈ (validate_input_string s A).2 ↔ c ∈ s ∧ c ∉ A) := by
  simp only [validate_input_string]
  split
  · rename_i hnil
    subst hnil
    refine ⟨by simp, by simp, ?_⟩
    intro h
    exact Bool.noConfusion h
  · rename_i hnil
    split
    · rename_i hinv
      refine ⟨?_, ?_, ?_⟩
      · constructor
        · intro h
          exact Bool.noConfusion h
        · intro hall
          exfalso
          apply hinv
          rw [List.dedup_eq_nil, List.filter_eq_nil_iff]
          intro c hc
          simp [hall c hc]
      · intro h
        exact Bool.noConfusion h
      · intro _
        refine ⟨List.sorted_insertionSort _ _, ?_, ?_⟩
        · exact ((List.perm_insertionSort _ _).nodup_iff).mpr
            (List.nodup_dedup _)
        · intro c
          rw [(List.perm_insertionSort _ _).mem_iff, List.mem_dedup,
              List.mem_filter]
          simp
    · rename_i hinv
      push_neg at hinv
      refine ⟨?_, by intro _; rfl, ?_⟩
      · simp only [true_iff]
        intro c hc
        by_contra hcA
        have : c ∈ (List.filter (fun c => !A.contains c) s).dedup := by
          rw [List.mem_dedup, List.mem_filter]
          simp [hc, hcA]
        rw [hinv] at this
        cases this
      · intro h
        exact Bool.noConfusion h

/-- Witness for C9 at the string `axb` over the alphabet `{a, b}`: invalid,
with invalid-symbol list exactly `[x]`. -/
theorem C9_witness :
    ((validate_input_string ['a', 'x', 'b'] ['a', 'b']).1 = true ↔
      ∀ c ∈ ['a', 'x', 'b'], c ∈ ['a', 'b']) ∧
    ((validate_input_string ['a', 'x', 'b'] ['a', 'b']).1 = true →
      (validate_input_string ['a', 'x', 'b'] ['a', 'b']).2 = []) ∧
    ((validate_input_string ['a', 'x', 'b'] ['a', 'b']).1 = false →
      (validate_input_string ['a', 'x', 'b'] ['a', 'b']).2.Sorted
        (fun a b => a ≤ b) ∧
      (validate_input_string ['a', 'x', 'b'] ['a', 'b']).2.Nodup ∧
      ∀ c : Char, c ∈ (validate_input_string ['a', 'x', 'b'] ['a', 'b']).2 ↔
        c ∈ ['a', 'x', 'b'] ∧ c ∉ ['a', 'b']) :=
  C9_validate_spec ['a', 'x', 'b'] ['a', 'b']


/-- C2, counterexample: the run state of `M2` reached by `reset("")` followed
by five steps has its head at index 10 on a 10-cell tape; calling
`get_status()` on it mutates the machine — the tape grows from 10 to 11
cells — refuting the claim that `get_status` never mutates any field on
reachable run states. -/
theorem C2_counterexample :
    Reachable M2 C2s5 ∧ C2s5.tape.length = 10 ∧
    (get_status M2 C2s5).2.tape.length = 11 ∧
    (get_status M2 C2s5).2.tape ≠ C2s5.tape := by
  refine ⟨?_, by decide, by decide, by decide⟩
  have h0 : Reachable M2 C2s0 := Reachable.reset "" C2s0 (by decide)
  have h1 : Reachable M2 (C2next C2s0) := Reachable.step C2s0 _ h0 (by decide)
  have h2 : Reachable M2 (C2next (C2next C2s0)) :=
    Reachable.step _ _ h1 (by decide)
  have h3 : Reachable M2 (C2next (C2next (C2next C2s0))) :=
    Reachable.step _ _ h2 (by decide)
  have h4 : Reachable M2 (C2next (C2next (C2next (C2next C2s0)))) :=
    Reachable.step _ _ h3 (by decide)
  exact Reachable.step _ _ h4 (by decide)

/-- C10 (amended): calling `step()` on a freshly constructed machine whose
initial state is not terminal behaves exactly as if the machine stood on a
one-cell all-blank tape: the empty tape is lazily extended and the blank
symbol is read.  (When the initial state is terminal, the call returns the
terminal result over the still-empty tape.) -/
theorem C10_fresh_step (M : Machine)
    (ha : M.accept_states.contains M.initial_state = false)
    (hr : M.reject_states.contains M.initial_state = false) :
    step M (freshState M) =
      step M { freshState M with tape := [M.blank_symbol] } ∧
    ensure_tape_bounds M.blank_symbol [] 0 = ([M.blank_symbol], 0) := by
  constructor
  · have e0 : ensure_tape_bounds M.blank_symbol [] 0 = ([M.blank_symbol], 0) := by
      simp only [ensure_tape_bounds]
      norm_num
    have e1 : ensure_tape_bounds M.blank_symbol [M.blank_symbol] 0 =
        ([M.blank_symbol], 0) :=
      ensure_in_range M.blank_symbol [M.blank_symbol] 0 (by omega) (by simp)
    simp only [step, freshState, ha, hr, Bool.false_eq_true, if_false, e0, e1]
  · simp only [ensure_tape_bounds]
    norm_num

/-- Witness for C10 at the sample machine `REGEX_1_CONFIG` (initial state
`q0`, not terminal). -/
theorem C10_witness :
    step REGEX_1_CONFIG (freshState REGEX_1_CONFIG) =
      step REGEX_1_CONFIG
        { freshState REGEX_1_CONFIG with tape := [REGEX_1_CONFIG.blank_symbol] } ∧
    ensure_tape_bounds REGEX_1_CONFIG.blank_symbol [] 0 =
      ([REGEX_1_CONFIG.blank_symbol], 0) :=
  C10_fresh_step REGEX_1_CONFIG (by decide) (by decide)


/-- Along the run loop, the step count grows by at most one per iteration,
and no loop-produced result carries the step-limit signal. -/
theorem run_loop_facts (M : Machine) :
    ∀ (n : Nat) (s : MState) (acc rs : List StepResult) (sF : MState),
      run_loop M n s acc = Except.ok (rs, sF) →
      (∀ r ∈ acc, r.msg ≠ Msg.maxStepsReached) →
      sF.step_count ≤ s.step_count + n ∧
      (∀ r ∈ rs, r.msg ≠ Msg.maxStepsReached) := by
  intro n
  induction n with
  | zero =>
    intro s acc rs sF h hacc
    simp only [run_loop] at h
    rw [Except.ok.injEq, Prod.mk.injEq] at h
    obtain ⟨h1, h2⟩ := h
    subst h1
    subst h2
    exact ⟨by omega, hacc⟩
  | succ n ih =>
    intro s acc rs sF h hacc
    simp only [run_loop] at h
    split at h
    · exact Except.noConfusion h
    · rename_i r s1 hstep
      obtain ⟨_, _, _, hc1, hc2, _, hmsg, _⟩ := step_shape M s r s1 hstep
      split at h
      · have hih := ih s1 (acc ++ [r]) rs sF h (by
          intro x hx
          rcases List.mem_append.mp hx with hx | hx
          · exact hacc x hx
          · rw [List.mem_singleton] at hx
            subst hx
            exact hmsg)
        exact ⟨by omega, hih.2⟩
      · rw [Except.ok.injEq, Prod.mk.injEq] at h
        obtain ⟨h1, h2⟩ := h
        subst h1
        subst h2
        refine ⟨by omega, ?_⟩
        intro x hx
        rcases List.mem_append.mp hx with hx | hx
        · exact hacc x hx
        · rw [List.mem_singleton] at hx
          subst hx
          exact hmsg

/-- C5 (amended): the forced step-limit reject occurs if and only if the
final step count equals `maxSteps` — which includes the case where the
machine reached its terminal outcome exactly on the `maxSteps`-th step — and
the step count never exceeds `maxSteps`; the looping scenario with
`maxSteps = 50` ends with the step-limit signal, `step_count = 50`, and the
current state overridden to the reject state `qr`. -/
theorem C5_step_limit :
    (∀ (M : Machine) (input : String) (max_steps : Nat) (rs : List StepResult)
        (sF : MState),
      run M input max_steps = Except.ok (rs, sF) →
      ((rs.getLast?.map StepResult.msg = some Msg.maxStepsReached) ↔
        sF.step_count = max_steps) ∧
      sF.step_count ≤ max_steps) ∧
    (run M2 "" 50).toOption.map
        (fun p => (p.1.getLast?.map StepResult.msg, p.2.step_count,
                   p.2.current_state,
                   M2.reject_states.contains p.2.current_state)) =
      some (some Msg.maxStepsReached, 50, "qr", true) := by
  constructor
  · intro M input max_steps rs sF h
    simp only [run] at h
    split at h
    · exact Except.noConfusion h
    · rename_i s0 hres
      split at h
      · exact Except.noConfusion h
      · rename_i results s1 hloop
        rw [Except.ok.injEq] at h
        have hs0 : s0.step_count = 0 :=
          (save_configuration_ok _ _ _ hres).2.2.2.1
        obtain ⟨hcount, hmsgs⟩ :=
          run_loop_facts M max_steps s0 [] results s1 hloop
            (by intro r hr; cases hr)
        rw [hs0] at hcount
        simp only [run_finalize] at h
        split at h
        · rename_i hge
          rw [Prod.mk.injEq] at h
          obtain ⟨hrs, hsF⟩ := h
          subst hrs
          subst hsF
          constructor
          · constructor
            · intro _
              show s1.step_count = max_steps
              omega
            · intro _
              rw [List.getLast?_concat]
              rfl
          · show s1.step_count ≤ max_steps
            omega
        · rename_i hlt
          rw [Prod.mk.injEq] at h
          obtain ⟨hrs, hsF⟩ := h
          subst hrs
          subst hsF
          push_neg at hlt
          constructor
          · constructor
            · intro hlast
              rcases Option.map_eq_some'.mp hlast with ⟨r, hr, hmsg⟩
              exact absurd hmsg (hmsgs r (List.mem_of_mem_getLast? hr))
            · intro heq
              omega
          · omega
  · decide

/-- Witness for C5's general part at the machine `Macc5` run with
`maxSteps = 1`. -/
theorem C5_witness :
    ((C5rs.getLast?.map StepResult.msg = some Msg.maxStepsReached) ↔
      C5sF.step_count = 1) ∧
    C5sF.step_count ≤ 1 :=
  C5_step_limit.1 Macc5 "" 1 C5rs C5sF (by decide)


/-- C6: `reset(s)` produces exactly the claimed configuration — margins of 5
blanks, head at index 5 (also for empty input), initial state, step count 0,
one history entry — and `get_status()` immediately afterwards reports step
count 0, the initial state, the visible tape content (between the margins)
equal to `s`, and leaves the state unchanged. -/
theorem C6_reset_roundtrip (M : Machine) (input : String) :
    reset M input = Except.ok (resetSpecConfig M input) ∧
    (get_status M (resetSpecConfig M input)).1.step = 0 ∧
    (get_status M (resetSpecConfig M input)).1.state = M.initial_state ∧
    ((get_status M (resetSpecConfig M input)).1.tape.drop 5).take
        input.toList.length = input.toList ∧
    (get_status M (resetSpecConfig M input)).2 = resetSpecConfig M input := by
  have hlen : (5 : Int) <
      (((List.replicate 5 M.blank_symbol ++ input.toList ++
        List.replicate 5 M.blank_symbol).length : Nat) : Int) := by
    simp only [List.length_append, List.length_replicate]
    push_cast
    omega
  have hstat : ensure_tape_bounds M.blank_symbol
      (resetSpecConfig M input).tape (resetSpecConfig M input).head_position =
      ((resetSpecConfig M input).tape, (resetSpecConfig M input).head_position) :=
    ensure_in_range _ _ _ (by norm_num [resetSpecConfig]) (by
      show (5 : Int) < _
      exact hlen)
  refine ⟨?_, ?_, ?_, ?_, ?_⟩
  · simp only [reset, save_configuration]
    rw [if_pos (by exact hlen)]
    rw [pyIndex_ok _ 5 (by omega) hlen]
    rw [show ((5 : Int)).toNat = 5 from rfl]
    rw [List.append_assoc]
    rw [List.getD_append_right _ _ _ _ (by simp)]
    simp only [List.length_replicate, Nat.sub_self]
    cases hi : input.toList with
    | nil =>
      simp only [resetSpecConfig, hi, List.append_assoc]
      rw [List.nil_append, getD_replicate_lt 5 0 M.blank_symbol ' ' (by omega)]
      simp
    | cons c cs =>
      simp only [resetSpecConfig, hi, List.append_assoc]
      rfl
  · simp only [get_status, hstat]
    rfl
  · simp only [get_status, hstat]
    rfl
  · simp only [get_status, hstat]
    show (((resetSpecConfig M input).tape.drop 5).take input.toList.length) =
      input.toList
    simp only [resetSpecConfig]
    rw [List.append_assoc]
    rw [List.drop_left' (by simp : (List.replicate 5 M.blank_symbol).length = 5)]
    exact List.take_left _ _
  · simp only [get_status, hstat]

end TM
